import Mathlib

/-!
Verification of the economic-simulation core of the EGA Trader game
(`src/game.py`): per-station pricing (`Market.adjust_price`), the
two-tier position metric (`Position.distance_to`), the AI trader's
trend analysis, buy/sell decision policy, opportunity-scored movement
planning and single-step ship movement.

Python floats are modelled as exact rationals (ℚ), Python ints as ℤ.
Python dictionaries keyed by the fixed `CommodityType` enum are
modelled as total functions on the enum; the trade-memory dictionary
(insertion ordered) is modelled as an association list in insertion
order.  Calls to `random.random()` are modelled by explicit oracle
parameters for the branch outcomes they determine.
-/

namespace EGATrader

/-- The fixed commodity enumeration (`CommodityType` in game.py). -/
inductive CommodityType where
  | FOOD
  | MINERALS
  | TECHNOLOGY
  | MEDICINE
  | LUXURIES
  | FUEL
deriving DecidableEq, Fintype, Repr

/-- The order in which Python iterates `for commodity in CommodityType`. -/
def commodityList : List CommodityType :=
  [.FOOD, .MINERALS, .TECHNOLOGY, .MEDICINE, .LUXURIES, .FUEL]

/-- The `StationType` enum. -/
inductive StationType where
  | TRADING_POST
  | RESEARCH_STATION
  | MINING_COLONY
  | MANUFACTURING_HUB
deriving DecidableEq, Fintype, Repr

/-- The `AIPersonality` enum. -/
inductive AIPersonality where
  | CAUTIOUS
  | AGGRESSIVE
  | OPPORTUNIST
  | SPECIALIST
deriving DecidableEq, Fintype, Repr

/-- The `Position` dataclass: quadrant and sector coordinates. -/
structure Position where
  quadrant_x : ℤ
  quadrant_y : ℤ
  sector_x : ℤ
  sector_y : ℤ
deriving DecidableEq, Repr

/-- Method `Position.distance_to`: Manhattan distance between sectors when the
quadrants agree, otherwise Manhattan distance between quadrants times 8. -/
def Position.distance_to (p other : Position) : ℤ :=
  let q_dist := |p.quadrant_x - other.quadrant_x| + |p.quadrant_y - other.quadrant_y|
  if q_dist = 0 then
    |p.sector_x - other.sector_x| + |p.sector_y - other.sector_y|
  else
    q_dist * 8

/-- The `Market` dataclass: per-commodity current price, supply/demand
multiplier and stock level. -/
structure Market where
  commodities : CommodityType → ℚ
  supply_demand : CommodityType → ℚ
  stock_levels : CommodityType → ℤ

instance : DecidableEq Market := fun m1 m2 =>
  decidable_of_iff
    (m1.commodities = m2.commodities ∧ m1.supply_demand = m2.supply_demand ∧
      m1.stock_levels = m2.stock_levels)
    (by cases m1; cases m2; simp)

/-- Method `Market._get_base_price`: the fixed reference price table. -/
def getBasePrice : CommodityType → ℚ
  | .FOOD => 100
  | .MINERALS => 150
  | .TECHNOLOGY => 500
  | .MEDICINE => 300
  | .LUXURIES => 800
  | .FUEL => 80

/-- Method `Market.adjust_price`: bounded elastic price response and stock update. -/
def Market.adjust_price (m : Market) (commodity : CommodityType)
    (quantity_change : ℤ) : Market :=
  let current_stock := m.stock_levels commodity
  let price_impact : ℚ := -(quantity_change : ℚ) / ((max 100 current_stock : ℤ) : ℚ) * 0.1
  let current_price := m.commodities commodity
  let new_price := current_price * (1 + price_impact)
  let base_price := getBasePrice commodity
  let min_price := base_price * 0.5
  let max_price := base_price * 2.0
  { m with
    commodities := Function.update m.commodities commodity
      (max min_price (min max_price new_price)),
    stock_levels := Function.update m.stock_levels commodity
      (max 0 (current_stock + quantity_change)) }

/-- The `Station` dataclass. -/
structure Station where
  name : String
  station_type : StationType
  position : Position
  market : Market
deriving DecidableEq

/-- The fields of the `Ship` dataclass read or written by the AI-trader
core (display-only fields such as warp factor and subsystem levels are
retained where a claim's purity statement needs them to vary). -/
structure Ship where
  name : String
  position : Position
  energy : ℤ
  max_energy : ℤ
  cargo_hold : CommodityType → ℤ
  max_cargo : ℤ
  credits : ℚ
  destination : Option Position
  last_trade_time : ℚ
  personality : AIPersonality
  preferred_commodities : List CommodityType
  risk_tolerance : ℚ
  patience : ℚ

/-- Method `Ship.total_cargo`: sum of the cargo hold over the commodity keys. -/
def Ship.total_cargo (s : Ship) : ℤ :=
  (commodityList.map s.cargo_hold).sum

/-- Method `Ship.cargo_space_remaining`. -/
def Ship.cargo_space_remaining (s : Ship) : ℤ :=
  s.max_cargo - s.total_cargo

/-- Every base price is positive. -/
theorem getBasePrice_pos (c : CommodityType) : 0 < getBasePrice c := by
  cases c <;> norm_num [getBasePrice]

/-- Python's `int(x)` on a float/rational: truncation toward zero. -/
def pyInt (q : ℚ) : ℤ :=
  if 0 ≤ q then ⌊q⌋ else ⌈q⌉

/-- The trend map `AITrader.market_analysis`: a partial per-commodity map,
read through `dict.get(commodity, 0)`. -/
def MarketAnalysis : Type := CommodityType → Option ℚ

/-- Reading `dict.get(commodity, 0)` on the trend map. -/
def trendOf (analysis : MarketAnalysis) (c : CommodityType) : ℚ :=
  (analysis c).getD 0

/-- Method `AITrader._should_sell_commodity`: personality margin threshold plus
the patient "wait out a rising market" refusal. `_gt` mirrors the unused
`game_time` parameter. -/
def shouldSellCommodity (ship : Ship) (analysis : MarketAnalysis)
    (commodity : CommodityType) (station : Station) (_gt : ℚ) : Bool :=
  let sell_price := station.market.commodities commodity
  let base_price := getBasePrice commodity
  let min_profit_margin : ℚ :=
    if ship.personality = .CAUTIOUS then 0.05
    else if ship.personality = .AGGRESSIVE then 0.15
    else if ship.personality = .OPPORTUNIST then 0.08
    else if commodity ∈ ship.preferred_commodities then 0.12
    else 0.03
  let profit_margin := (sell_price - base_price) / base_price
  let trend := trendOf analysis commodity
  if 0.1 < trend ∧ 0.7 < ship.patience then false
  else decide (min_profit_margin ≤ profit_margin)

/-- Method `AITrader._should_buy_commodity`: the price-ratio refusal chain,
the specialist preference filter, and the four-way quantity cap. -/
def shouldBuyCommodity (ship : Ship) (commodity : CommodityType)
    (station : Station) (_gt : ℚ) : ℤ :=
  let buy_price := station.market.commodities commodity
  let base_price := getBasePrice commodity
  let available_funds := ship.credits * ship.risk_tolerance
  let price_ratio := buy_price / base_price
  if ship.personality = .CAUTIOUS ∧ 1.05 < price_ratio then 0
  else if ship.personality = .AGGRESSIVE ∧ 1.25 < price_ratio then 0
  else if 1.15 < price_ratio then 0
  else if ship.personality = .SPECIALIST ∧ commodity ∉ ship.preferred_commodities then 0
  else
    let max_affordable := pyInt (available_funds / buy_price)
    let max_space := ship.cargo_space_remaining
    let max_stock := station.market.stock_levels commodity
    let buy_amount :=
      if ship.personality = .CAUTIOUS then
        min 5 (min max_affordable (min max_space max_stock))
      else if ship.personality = .AGGRESSIVE then
        min 25 (min max_affordable (min max_space max_stock))
      else if ship.personality = .OPPORTUNIST then
        if price_ratio < 0.9 then min 20 (min max_affordable (min max_space max_stock))
        else min 10 (min max_affordable (min max_space max_stock))
      else
        if commodity ∈ ship.preferred_commodities then
          min 30 (min max_affordable (min max_space max_stock))
        else 0
    max 0 buy_amount

/-- One quadrant entry of `AITrader.trade_memory`: the quadrant key and
the per-commodity `(price, timestamp)` record.  The whole memory is the
association list of entries in dictionary insertion order. -/
structure MemoryEntry where
  key : ℤ × ℤ
  data : CommodityType → Option (ℚ × ℚ)

/-- The price sequence `_analyze_market_trends` collects for one
commodity: every remembered price across quadrant entries in insertion
order. -/
def pricesFor (memory : List MemoryEntry) (c : CommodityType) : List ℚ :=
  memory.filterMap fun e => (e.data c).map Prod.fst

/-- The per-commodity body of `AITrader._analyze_market_trends`:
`none` when fewer than two prices are remembered (the stored trend is
then left untouched), otherwise the computed trend. -/
def analyzeTrendList (prices : List ℚ) : Option ℚ :=
  if 2 ≤ prices.length then
    let recent_avg : ℚ :=
      if 3 ≤ prices.length then
        (prices.drop (prices.length - 3)).sum / ((prices.drop (prices.length - 3)).length : ℚ)
      else prices.getLastD 0
    let older_avg : ℚ :=
      if 3 < prices.length then
        (prices.take (prices.length - 3)).sum / ((prices.take (prices.length - 3)).length : ℚ)
      else prices.headD 0
    some (if 0 < older_avg then (recent_avg - older_avg) / older_avg else 0)
  else none

/-- Method `AITrader._analyze_market_trends`: refresh the stored trend map from
the trade memory, keeping the old value where fewer than two prices exist. -/
def analyzeMarketTrends (memory : List MemoryEntry)
    (analysis : MarketAnalysis) : MarketAnalysis := fun c =>
  match analyzeTrendList (pricesFor memory c) with
  | some t => some t
  | none => analysis c

/-- Method `AITrader._evaluate_station_opportunity`: selling score over held
cargo, arbitrage score against the best other-station sell price,
distance penalty, and the specialist multiplier. `stations` is
`self.galaxy.stations`; `_gt` mirrors the unused `game_time` parameter. -/
def evaluateStationOpportunity (ship : Ship) (stations : List Station)
    (station : Station) (_gt : ℚ) : ℚ :=
  let distance : ℚ := ((ship.position.distance_to station.position : ℤ) : ℚ)
  let sell_score :=
    commodityList.foldl (fun acc c =>
      let quantity := ship.cargo_hold c
      if 0 < quantity then
        acc + (quantity : ℚ) * (station.market.commodities c - getBasePrice c)
      else acc) 0
  let buy_score :=
    commodityList.foldl (fun acc c =>
      let buy_price := station.market.commodities c
      let best_sell_price :=
        stations.foldl (fun best other =>
          if other ≠ station then max best (other.market.commodities c) else best) 0
      if buy_price * 1.1 < best_sell_price then
        acc + (best_sell_price - buy_price) * 10
      else acc) 0
  let score := sell_score + buy_score - distance * (1 - ship.patience)
  if ship.personality = .SPECIALIST then
    if station.station_type = .MINING_COLONY ∧
        CommodityType.MINERALS ∈ ship.preferred_commodities then
      score * 1.5
    else if station.station_type = .RESEARCH_STATION ∧
        CommodityType.MEDICINE ∈ ship.preferred_commodities then
      score * 1.5
    else score
  else score

/-- The candidate-selection fold inside `AITrader._plan_movement`:
running `(best_station, best_score)` accumulator, skipping stations at
the ship's own position, replacing the best only on a strictly greater
score. -/
def planFold (ship : Ship) (stations : List Station) (gt : ℚ) :
    Option Station × ℚ :=
  stations.foldl (fun acc station =>
    if station.position = ship.position then acc
    else
      let score := evaluateStationOpportunity ship stations station gt
      if acc.2 < score then (some station, score) else acc)
    (none, 0)

/-- The destination re-evaluation body of `AITrader._plan_movement`
(the branch taken when the ship has no destination or the random
re-plan roll succeeds): the resulting stored destination. -/
def planMovementReeval (ship : Ship) (stations : List Station) (gt : ℚ) :
    Option Position :=
  match (planFold ship stations gt).1 with
  | some best_station => some best_station.position
  | none => ship.destination

/-- The detour scan of `AITrader._move_ship`: the first station within
distance 2 of `current`, not at `current`, whose opportunity score
exceeds 100. -/
def detourTarget (ship : Ship) (stations : List Station)
    (current : Position) : Option Station :=
  stations.find? fun station =>
    decide (station.position.distance_to current ≤ 2 ∧
      station.position ≠ current ∧
      100 < evaluateStationOpportunity ship stations station 0)

/-- Method `AITrader._move_ship`: one step toward the destination along the
first differing axis (quadrant-x, quadrant-y, sector-x, sector-y), the
opportunist detour redirect, and destination clearing on arrival.
`detour_roll` is the oracle for `random.random() < 0.1`.  Returns the
new position and the new stored destination. -/
def moveShip (ship : Ship) (stations : List Station) (detour_roll : Bool) :
    Position × Option Position :=
  match ship.destination with
  | none => (ship.position, none)
  | some stored_dest =>
    let current := ship.position
    let dest :=
      if ship.personality = .OPPORTUNIST ∧ detour_roll then
        match detourTarget ship stations current with
        | some station => station.position
        | none => stored_dest
      else stored_dest
    if current.quadrant_x ≠ dest.quadrant_x then
      ({ current with quadrant_x :=
          current.quadrant_x + (if current.quadrant_x < dest.quadrant_x then 1 else -1) },
        some stored_dest)
    else if current.quadrant_y ≠ dest.quadrant_y then
      ({ current with quadrant_y :=
          current.quadrant_y + (if current.quadrant_y < dest.quadrant_y then 1 else -1) },
        some stored_dest)
    else if current.sector_x ≠ dest.sector_x then
      ({ current with sector_x :=
          current.sector_x + (if current.sector_x < dest.sector_x then 1 else -1) },
        some stored_dest)
    else if current.sector_y ≠ dest.sector_y then
      ({ current with sector_y :=
          current.sector_y + (if current.sector_y < dest.sector_y then 1 else -1) },
        some stored_dest)
    else
      (current, none)

/-- The mutable state threaded through `AITrader._trade_at_station`:
the agent's ship, the station's market, and the `total_profit`
accumulator. -/
structure TradeState where
  ship : Ship
  market : Market
  total_profit : ℚ

/-- One iteration of the sell loop of `_trade_at_station` for the
snapshotted `(commodity, quantity)` pair.  `station0` is the station
record; its market field is replaced by the current market state (the
Python station's market mutates in place). -/
def sellStep (analysis : MarketAnalysis) (station0 : Station)
    (gt : ℚ) (s : TradeState) (item : CommodityType × ℤ) : TradeState :=
  let commodity := item.1
  let quantity := item.2
  let station := { station0 with market := s.market }
  if 0 < quantity ∧ shouldSellCommodity s.ship analysis commodity station gt then
    let sell_price := s.market.commodities commodity
    let base_price := getBasePrice commodity
    let sell_amount :=
      if s.ship.personality = .CAUTIOUS then min quantity 5
      else if s.ship.personality = .AGGRESSIVE then min quantity 15
      else min quantity 10
    { ship := { s.ship with
        cargo_hold := Function.update s.ship.cargo_hold commodity
          (s.ship.cargo_hold commodity - sell_amount),
        credits := s.ship.credits + (sell_amount : ℚ) * sell_price },
      market := s.market.adjust_price commodity sell_amount,
      total_profit := s.total_profit + (sell_amount : ℚ) * (sell_price - base_price) }
  else s

/-- One iteration of the buy loop of `_trade_at_station`. -/
def buyStep (station0 : Station) (gt : ℚ)
    (s : TradeState) (commodity : CommodityType) : TradeState :=
  let station := { station0 with market := s.market }
  let buy_amount := shouldBuyCommodity s.ship commodity station gt
  if 0 < buy_amount then
    let buy_price := s.market.commodities commodity
    let total_cost := (buy_amount : ℚ) * buy_price
    { s with
      ship := { s.ship with
        cargo_hold := Function.update s.ship.cargo_hold commodity
          (s.ship.cargo_hold commodity + buy_amount),
        credits := s.ship.credits - total_cost },
      market := s.market.adjust_price commodity (-buy_amount) }
  else s

/-- Method `AITrader._trade_at_station`: the trade-interval gate, the sell loop
over the snapshot of the cargo hold, the buy loop over all commodities,
the profit-history update and the `last_trade_time` stamp.  The market
argument is the station's market pre-state; the returned market is its
post-state (the Python station's market mutates in place). -/
def tradeAtStation (ship : Ship) (analysis : MarketAnalysis)
    (profit_history : List ℚ) (station0 : Station)
    (market : Market) (gt : ℚ) : Ship × Market × List ℚ :=
  let trade_interval := 2.0 - ship.risk_tolerance
  if gt - ship.last_trade_time < trade_interval then (ship, market, profit_history)
  else
    let items := commodityList.map fun c => (c, ship.cargo_hold c)
    let s1 := items.foldl (sellStep analysis station0 gt)
      { ship := ship, market := market, total_profit := 0 }
    let s2 := commodityList.foldl (buyStep station0 gt) s1
    let history :=
      if s2.total_profit ≠ 0 then
        let h := profit_history ++ [s2.total_profit]
        if 10 < h.length then h.drop 1 else h
      else profit_history
    ({ s2.ship with last_trade_time := gt }, s2.market, history)

/-! ### Helper lemmas -/

theorem abs_add_abs_eq_zero_iff (a b : ℤ) : |a| + |b| = 0 ↔ a = 0 ∧ b = 0 := by
  constructor
  · intro h
    have ha := abs_nonneg a
    have hb := abs_nonneg b
    exact ⟨abs_eq_zero.mp (by linarith), abs_eq_zero.mp (by linarith)⟩
  · rintro ⟨rfl, rfl⟩
    simp

/-! ### Claims -/

/-- C1. `Market.adjust_price` keeps the stock level non-negative and the
resulting price inside `[0.5 × base_price, 2.0 × base_price]`, for any
integer quantity change and any pre-state with non-negative stock. -/
theorem adjust_price_bounds (m : Market) (c : CommodityType) (q : ℤ)
    (hs : 0 ≤ m.stock_levels c) :
    0 ≤ (m.adjust_price c q).stock_levels c ∧
    0.5 * getBasePrice c ≤ (m.adjust_price c q).commodities c ∧
    (m.adjust_price c q).commodities c ≤ 2.0 * getBasePrice c := by
  have hb := getBasePrice_pos c
  simp only [Market.adjust_price, Function.update_same]
  refine ⟨le_max_left 0 _, ?_, ?_⟩
  · calc (0.5 : ℚ) * getBasePrice c = getBasePrice c * 0.5 := by ring
    _ ≤ _ := le_max_left _ _
  · refine max_le (by linarith) ?_
    calc min (getBasePrice c * 2.0) _ ≤ getBasePrice c * 2.0 := min_le_left _ _
    _ = 2.0 * getBasePrice c := by ring

/-- A concrete market with all prices 100, neutral multipliers, stock 50. -/
def sampleMarket : Market :=
  { commodities := fun _ => 100
    supply_demand := fun _ => 1
    stock_levels := fun _ => 50 }

/-- Witness for C1 at a concrete buy of 50 units of food. -/
theorem adjust_price_bounds_witness :
    0 ≤ sampleMarket.stock_levels .FOOD ∧
    (0 ≤ (sampleMarket.adjust_price .FOOD (-50)).stock_levels .FOOD ∧
      0.5 * getBasePrice .FOOD ≤ (sampleMarket.adjust_price .FOOD (-50)).commodities .FOOD ∧
      (sampleMarket.adjust_price .FOOD (-50)).commodities .FOOD ≤ 2.0 * getBasePrice .FOOD) :=
  ⟨by norm_num [sampleMarket],
    adjust_price_bounds sampleMarket .FOOD (-50) (by norm_num [sampleMarket])⟩

/-- A market whose food price (300) lies outside the clamp interval
`[50, 200]` for food's base price 100. -/
def outOfBoundsMarket : Market :=
  { commodities := fun _ => 300
    supply_demand := fun _ => 1
    stock_levels := fun _ => 10 }

/-- C7 counterexample. The claim "for every Market state,
`adjust_price(c, 0)` leaves the price unchanged" fails when the
pre-state price lies outside the clamp interval: with food priced 300
(base 100), a zero-quantity adjustment clamps the price to 200. -/
theorem adjust_price_zero_counterexample :
    (outOfBoundsMarket.adjust_price .FOOD 0).commodities .FOOD ≠
      outOfBoundsMarket.commodities .FOOD := by
  norm_num [Market.adjust_price, outOfBoundsMarket, getBasePrice]

/-- C7 (amended). For every commodity `c` and every Market state whose
price for `c` lies within the invariant interval
`[0.5 × base, 2.0 × base]` and whose stock for `c` is non-negative,
`adjust_price(c, 0)` leaves both the price map and the stock map
unchanged. -/
theorem adjust_price_zero_noop (m : Market) (c : CommodityType)
    (hlo : 0.5 * getBasePrice c ≤ m.commodities c)
    (hhi : m.commodities c ≤ 2.0 * getBasePrice c)
    (hs : 0 ≤ m.stock_levels c) :
    (m.adjust_price c 0).commodities = m.commodities ∧
    (m.adjust_price c 0).stock_levels = m.stock_levels := by
  have himp : (-((0 : ℤ) : ℚ)) / ((max 100 (m.stock_levels c) : ℤ) : ℚ) * 0.1 = 0 := by
    norm_num
  constructor
  · have hval : max (getBasePrice c * 0.5)
        (min (getBasePrice c * 2.0)
          (m.commodities c *
            (1 + (-((0 : ℤ) : ℚ)) / ((max 100 (m.stock_levels c) : ℤ) : ℚ) * 0.1))) =
        m.commodities c := by
      rw [himp]
      rw [show m.commodities c * (1 + 0) = m.commodities c by ring]
      rw [min_eq_right (by linarith), max_eq_right (by linarith)]
    simp only [Market.adjust_price]
    rw [hval, Function.update_eq_self]
  · simp only [Market.adjust_price]
    rw [show m.stock_levels c + 0 = m.stock_levels c from add_zero _,
      max_eq_right hs, Function.update_eq_self]

/-- Witness for C7 (amended) on a concrete in-bounds market. -/
theorem adjust_price_zero_noop_witness :
    (0.5 * getBasePrice .FOOD ≤ sampleMarket.commodities .FOOD ∧
      sampleMarket.commodities .FOOD ≤ 2.0 * getBasePrice .FOOD ∧
      0 ≤ sampleMarket.stock_levels .FOOD) ∧
    ((sampleMarket.adjust_price .FOOD 0).commodities = sampleMarket.commodities ∧
      (sampleMarket.adjust_price .FOOD 0).stock_levels = sampleMarket.stock_levels) :=
  ⟨by norm_num [sampleMarket, getBasePrice],
    adjust_price_zero_noop sampleMarket .FOOD
      (by norm_num [sampleMarket, getBasePrice])
      (by norm_num [sampleMarket, getBasePrice])
      (by norm_num [sampleMarket])⟩

/-- C8. `distance_to` is symmetric, non-negative, zero on equal
positions, and equals the two-tier metric: sector Manhattan distance
within a quadrant, quadrant Manhattan distance times 8 across quadrants. -/
theorem distance_to_metric (p q : Position) :
    p.distance_to q = q.distance_to p ∧
    0 ≤ p.distance_to q ∧
    p.distance_to p = 0 ∧
    (p.quadrant_x = q.quadrant_x ∧ p.quadrant_y = q.quadrant_y →
      p.distance_to q = |p.sector_x - q.sector_x| + |p.sector_y - q.sector_y|) ∧
    (¬(p.quadrant_x = q.quadrant_x ∧ p.quadrant_y = q.quadrant_y) →
      p.distance_to q =
        (|p.quadrant_x - q.quadrant_x| + |p.quadrant_y - q.quadrant_y|) * 8) := by
  refine ⟨?_, ?_, ?_, ?_, ?_⟩
  · simp only [Position.distance_to]
    rw [abs_sub_comm p.quadrant_x, abs_sub_comm p.quadrant_y,
      abs_sub_comm p.sector_x, abs_sub_comm p.sector_y]
  · simp only [Position.distance_to]
    split
    · positivity
    · positivity
  · simp [Position.distance_to]
  · rintro ⟨h1, h2⟩
    simp [Position.distance_to, h1, h2]
  · intro h
    have hne : ¬(|p.quadrant_x - q.quadrant_x| + |p.quadrant_y - q.quadrant_y| = 0) := by
      intro hc
      obtain ⟨hx, hy⟩ := (abs_add_abs_eq_zero_iff _ _).mp hc
      exact h ⟨by linarith [sub_eq_zero.mp hx], by linarith [sub_eq_zero.mp hy]⟩
    simp only [Position.distance_to, if_neg hne]

/-- Witness for C8 on concrete same-quadrant and cross-quadrant pairs. -/
theorem distance_to_metric_witness :
    ((⟨0, 0, 1, 2⟩ : Position).quadrant_x = (⟨0, 0, 3, 5⟩ : Position).quadrant_x ∧
      (⟨0, 0, 1, 2⟩ : Position).quadrant_y = (⟨0, 0, 3, 5⟩ : Position).quadrant_y) ∧
    Position.distance_to ⟨0, 0, 1, 2⟩ ⟨0, 0, 3, 5⟩ =
      |(1 : ℤ) - 3| + |(2 : ℤ) - 5| :=
  ⟨by decide, (distance_to_metric ⟨0, 0, 1, 2⟩ ⟨0, 0, 3, 5⟩).2.2.2.1 (by decide)⟩

/-- Truncation and floor agree once clamped below by 0 inside the
buy-amount minimum. -/
theorem max_min_pyInt_floor (a b c : ℤ) (q : ℚ) :
    max 0 (min a (min (pyInt q) (min b c))) =
      max 0 (min a (min ⌊q⌋ (min b c))) := by
  by_cases hq : 0 ≤ q
  · simp [pyInt, hq]
  · push_neg at hq
    have h1 : pyInt q ≤ 0 := by
      simp only [pyInt, if_neg (not_le.mpr hq)]
      exact Int.ceil_le.mpr (by exact_mod_cast hq.le)
    have h2 : ⌊q⌋ ≤ 0 := Int.floor_nonpos hq.le
    rw [max_eq_left (le_trans (min_le_right a _) (le_trans (min_le_left _ _) h1)),
      max_eq_left (le_trans (min_le_right a _) (le_trans (min_le_left _ _) h2))]

/-- The refusal condition of the C2 claim, stated from the spec's words. -/
def refusesBuy (ship : Ship) (commodity : CommodityType) (station : Station) : Prop :=
  let price_ratio := station.market.commodities commodity / getBasePrice commodity
  (ship.personality = .CAUTIOUS ∧ 1.05 < price_ratio) ∨
  (ship.personality = .AGGRESSIVE ∧ 1.25 < price_ratio) ∨
  1.15 < price_ratio ∨
  (ship.personality = .SPECIALIST ∧ commodity ∉ ship.preferred_commodities)

/-- The per-personality quantity cap of the C2 claim, stated from the
spec's words. -/
def personalityBuyCap (ship : Ship) (commodity : CommodityType) (station : Station) : ℤ :=
  let price_ratio := station.market.commodities commodity / getBasePrice commodity
  match ship.personality with
  | .CAUTIOUS => 5
  | .AGGRESSIVE => 25
  | .OPPORTUNIST => if price_ratio < 0.9 then 20 else 10
  | .SPECIALIST => if commodity ∈ ship.preferred_commodities then 30 else 0

/-- The buy amount of the C2 claim, stated from the spec's words:
`min` of the personality cap, `floor(credits × riskTolerance / buyPrice)`,
the remaining cargo space and the station stock, floored at 0. -/
def claimedBuyAmount (ship : Ship) (commodity : CommodityType) (station : Station) : ℤ :=
  max 0 (min (personalityBuyCap ship commodity station)
    (min ⌊ship.credits * ship.risk_tolerance / station.market.commodities commodity⌋
      (min ship.cargo_space_remaining (station.market.stock_levels commodity))))

/-- The agent of the spec's C2 scenario: Cautious, credits 1000, risk
tolerance 0.3, empty hold of capacity 100. -/
def cautiousShip : Ship :=
  { name := "Careful Trader 1"
    position := ⟨0, 0, 0, 0⟩
    energy := 800
    max_energy := 800
    cargo_hold := fun _ => 0
    max_cargo := 100
    credits := 1000
    destination := none
    last_trade_time := 0
    personality := .CAUTIOUS
    preferred_commodities := []
    risk_tolerance := 0.3
    patience := 0.5 }

/-- The station of the spec's C2 scenario: everything priced 95
(food base 100), ample stock. -/
def foodStation : Station :=
  { name := "Alpha Station 1"
    station_type := .TRADING_POST
    position := ⟨0, 0, 0, 0⟩
    market :=
      { commodities := fun _ => 95
        supply_demand := fun _ => 1
        stock_levels := fun _ => 100 } }

/-- C2. `_should_buy_commodity` returns 0 exactly on the claim's refusal
disjunction, otherwise the minimum of the personality cap,
`floor(credits × riskTolerance / buyPrice)`, remaining cargo space and
station stock, floored at 0; and the Cautious scenario agent buys
exactly 3 units of food priced 95. -/
theorem shouldBuy_spec (ship : Ship) (commodity : CommodityType)
    (station : Station) (gt : ℚ) :
    (refusesBuy ship commodity station →
      shouldBuyCommodity ship commodity station gt = 0) ∧
    (¬refusesBuy ship commodity station →
      shouldBuyCommodity ship commodity station gt =
        claimedBuyAmount ship commodity station) ∧
    shouldBuyCommodity cautiousShip .FOOD foodStation 0 = 3 := by
  refine ⟨?_, ?_, ?_⟩
  · intro h
    simp only [shouldBuyCommodity, refusesBuy] at h ⊢
    split_ifs with h1 h2 h3 h4 <;> first | rfl | tauto
  · intro h
    simp only [refusesBuy] at h
    push_neg at h
    obtain ⟨hn1, hn2, hn3, hn4⟩ := h
    simp only [shouldBuyCommodity, claimedBuyAmount, personalityBuyCap]
    rw [if_neg (fun hc => (hn1 hc.1).not_lt hc.2),
      if_neg (fun hc => (hn2 hc.1).not_lt hc.2),
      if_neg (not_lt.mpr hn3),
      if_neg (fun hc => hc.2 (hn4 hc.1))]
    cases hper : ship.personality with
    | CAUTIOUS => exact max_min_pyInt_floor _ _ _ _
    | AGGRESSIVE =>
      rw [if_neg (by decide : ¬(AIPersonality.AGGRESSIVE = .CAUTIOUS))]
      rw [if_pos rfl]
      exact max_min_pyInt_floor _ _ _ _
    | OPPORTUNIST =>
      rw [if_neg (by decide : ¬(AIPersonality.OPPORTUNIST = .CAUTIOUS))]
      rw [if_neg (by decide : ¬(AIPersonality.OPPORTUNIST = .AGGRESSIVE))]
      rw [if_pos rfl]
      split_ifs <;> exact max_min_pyInt_floor _ _ _ _
    | SPECIALIST =>
      have hpref : commodity ∈ ship.preferred_commodities := hn4 hper
      rw [if_neg (by decide : ¬(AIPersonality.SPECIALIST = .CAUTIOUS))]
      rw [if_neg (by decide : ¬(AIPersonality.SPECIALIST = .AGGRESSIVE))]
      rw [if_neg (by decide : ¬(AIPersonality.SPECIALIST = .OPPORTUNIST))]
      rw [if_pos hpref, if_pos hpref]
      exact max_min_pyInt_floor _ _ _ _
  · norm_num [shouldBuyCommodity, cautiousShip, foodStation, getBasePrice, pyInt,
      Ship.cargo_space_remaining, Ship.total_cargo, commodityList] <;> decide

/-- Witness for C2: the non-refusal branch applied at the scenario
inputs yields the claimed minimum, which evaluates to 3. -/
theorem shouldBuy_spec_witness :
    ¬refusesBuy cautiousShip .FOOD foodStation ∧
    shouldBuyCommodity cautiousShip .FOOD foodStation 0 =
      claimedBuyAmount cautiousShip .FOOD foodStation :=
  ⟨by norm_num [refusesBuy, cautiousShip, foodStation, getBasePrice] <;> decide,
    (shouldBuy_spec cautiousShip .FOOD foodStation 0).2.1
      (by norm_num [refusesBuy, cautiousShip, foodStation, getBasePrice] <;> decide)⟩

/-- The minimum required profit margin of the C3 claim, stated from the
spec's words. -/
def requiredMargin (ship : Ship) (commodity : CommodityType) : ℚ :=
  match ship.personality with
  | .CAUTIOUS => 0.05
  | .AGGRESSIVE => 0.15
  | .OPPORTUNIST => 0.08
  | .SPECIALIST => if commodity ∈ ship.preferred_commodities then 0.12 else 0.03

/-- C3. `_should_sell_commodity` returns `False` whenever the remembered
trend exceeds 0.1 and patience exceeds 0.7; otherwise it returns `True`
iff the profit margin `(sellPrice - basePrice)/basePrice` reaches the
personality's minimum margin. -/
theorem shouldSell_spec (ship : Ship) (analysis : MarketAnalysis)
    (commodity : CommodityType) (station : Station) (gt : ℚ) :
    (0.1 < trendOf analysis commodity ∧ 0.7 < ship.patience →
      shouldSellCommodity ship analysis commodity station gt = false) ∧
    (¬(0.1 < trendOf analysis commodity ∧ 0.7 < ship.patience) →
      (shouldSellCommodity ship analysis commodity station gt = true ↔
        requiredMargin ship commodity ≤
          (station.market.commodities commodity - getBasePrice commodity) /
            getBasePrice commodity)) := by
  constructor
  · intro h
    simp only [shouldSellCommodity, if_pos h]
  · intro h
    simp only [shouldSellCommodity, requiredMargin, if_neg h, decide_eq_true_eq]
    cases ship.personality
    case CAUTIOUS => exact Iff.rfl
    case AGGRESSIVE =>
      rw [if_neg (by decide : ¬(AIPersonality.AGGRESSIVE = .CAUTIOUS)), if_pos rfl]
    case OPPORTUNIST =>
      rw [if_neg (by decide : ¬(AIPersonality.OPPORTUNIST = .CAUTIOUS)),
        if_neg (by decide : ¬(AIPersonality.OPPORTUNIST = .AGGRESSIVE)), if_pos rfl]
    case SPECIALIST =>
      rw [if_neg (by decide : ¬(AIPersonality.SPECIALIST = .CAUTIOUS)),
        if_neg (by decide : ¬(AIPersonality.SPECIALIST = .AGGRESSIVE)),
        if_neg (by decide : ¬(AIPersonality.SPECIALIST = .OPPORTUNIST))]

/-- Witness for C3: a non-patient Cautious agent with no remembered
trend sells food priced 95 at a station iff the margin -5% reaches 5%
(it does not). -/
theorem shouldSell_spec_witness :
    ¬((0.1 : ℚ) < trendOf (fun _ => none) .FOOD ∧ (0.7 : ℚ) < cautiousShip.patience) ∧
    (shouldSellCommodity cautiousShip (fun _ => none) .FOOD foodStation 0 = true ↔
      requiredMargin cautiousShip .FOOD ≤
        (foodStation.market.commodities .FOOD - getBasePrice .FOOD) /
          getBasePrice .FOOD) :=
  ⟨by norm_num [trendOf, cautiousShip],
    (shouldSell_spec cautiousShip (fun _ => none) .FOOD foodStation 0).2
      (by norm_num [trendOf, cautiousShip])⟩

/-- The trend formula exactly as the C5 claim words it: `recentAvg`
averages the last `min(3, len)` entries; `olderAvg` averages the
remaining entries, or equals the first price when fewer than 4 prices
exist; trend 0 when `olderAvg` is not positive. -/
def claimedTrendFormula (prices : List ℚ) : ℚ :=
  let k := min 3 prices.length
  let recent_avg := (prices.drop (prices.length - k)).sum / (k : ℚ)
  let older_avg :=
    if prices.length < 4 then prices.headD 0
    else (prices.take (prices.length - 3)).sum / ((prices.length - 3 : ℕ) : ℚ)
  if 0 < older_avg then (recent_avg - older_avg) / older_avg else 0

/-- The amended trend formula: `recentAvg` averages the last 3 entries
when at least 3 prices exist and otherwise equals the *last* price;
`olderAvg` as in the claim. -/
def amendedTrendFormula (prices : List ℚ) : ℚ :=
  let recent_avg :=
    if 3 ≤ prices.length then (prices.drop (prices.length - 3)).sum / 3
    else prices.getLastD 0
  let older_avg :=
    if prices.length < 4 then prices.headD 0
    else (prices.take (prices.length - 3)).sum / ((prices.length - 3 : ℕ) : ℚ)
  if 0 < older_avg then (recent_avg - older_avg) / older_avg else 0

/-- A trade-memory entry remembering food at price 100. -/
def memEntryA : MemoryEntry :=
  { key := (0, 0)
    data := fun c => if c = .FOOD then some (100, 0) else none }

/-- A trade-memory entry remembering food at price 110. -/
def memEntryB : MemoryEntry :=
  { key := (1, 0)
    data := fun c => if c = .FOOD then some (110, 1) else none }

/-- C5 counterexample. With exactly two remembered food prices
[100, 110], the code stores trend `(110 - 100)/100 = 0.10` (the recent
average is the single last price), while the claim's formula
"recentAvg averages the last min(3, len) entries" would give
`(105 - 100)/100 = 0.05`: the two parts of the claim contradict each
other and the general formula is the false one. -/
theorem analyze_trends_counterexample :
    analyzeMarketTrends [memEntryA, memEntryB] (fun _ => none) .FOOD ≠
      some (claimedTrendFormula (pricesFor [memEntryA, memEntryB] .FOOD)) := by
  have hp : pricesFor [memEntryA, memEntryB] .FOOD = [100, 110] := by
    norm_num [pricesFor, memEntryA, memEntryB, List.filterMap]
  rw [show analyzeMarketTrends [memEntryA, memEntryB] (fun _ => none) .FOOD =
      match analyzeTrendList (pricesFor [memEntryA, memEntryB] .FOOD) with
      | some t => some t
      | none => none from rfl, hp]
  norm_num [analyzeTrendList, claimedTrendFormula]

/-- The code's recent average (divide by the taken slice's length)
equals division by 3 when at least 3 prices exist. -/
theorem trend_recent_eq (l : List ℚ) :
    (if 3 ≤ l.length then
        (l.drop (l.length - 3)).sum / ((l.drop (l.length - 3)).length : ℚ)
      else l.getLastD 0) =
    (if 3 ≤ l.length then (l.drop (l.length - 3)).sum / 3 else l.getLastD 0) := by
  by_cases h3 : 3 ≤ l.length
  · rw [if_pos h3, if_pos h3, List.length_drop]
    have h : l.length - (l.length - 3) = 3 := by omega
    rw [h]
    norm_num
  · rw [if_neg h3, if_neg h3]

/-- The code's older average (guard `3 < len`, divide by the kept
slice's length) equals the claim's form (guard `len < 4`, divide by
`len - 3`). -/
theorem trend_older_eq (l : List ℚ) :
    (if 3 < l.length then
        (l.take (l.length - 3)).sum / ((l.take (l.length - 3)).length : ℚ)
      else l.headD 0) =
    (if l.length < 4 then l.headD 0
      else (l.take (l.length - 3)).sum / ((l.length - 3 : ℕ) : ℚ)) := by
  by_cases h4 : 3 < l.length
  · rw [if_pos h4, if_neg (by omega : ¬l.length < 4), List.length_take]
    have h : min (l.length - 3) l.length = l.length - 3 := by omega
    rw [h]
  · rw [if_neg h4, if_pos (by omega : l.length < 4)]

/-- C5 (amended). Whenever at least two prices are remembered for a
commodity, `_analyze_market_trends` stores the trend
`(recentAvg - olderAvg)/olderAvg` where `recentAvg` averages the last 3
prices when at least 3 exist and otherwise equals the last price,
`olderAvg` averages the remaining entries or equals the first price when
fewer than 4 exist, and the trend is 0 when `olderAvg` is not positive;
with exactly the two remembered prices [100, 110] the stored trend is
0.10. -/
theorem analyze_trends_spec (memory : List MemoryEntry)
    (analysis : MarketAnalysis) (c : CommodityType)
    (h : 2 ≤ (pricesFor memory c).length) :
    analyzeMarketTrends memory analysis c =
      some (amendedTrendFormula (pricesFor memory c)) ∧
    analyzeMarketTrends [memEntryA, memEntryB] (fun _ => none) .FOOD =
      some (1 / 10) := by
  constructor
  · set prices := pricesFor memory c with hp
    have hcode : analyzeTrendList prices =
        some (amendedTrendFormula prices) := by
      simp only [analyzeTrendList, amendedTrendFormula, if_pos h]
      rw [trend_recent_eq prices, trend_older_eq prices]
    rw [analyzeMarketTrends, hcode]
  · have hp : pricesFor [memEntryA, memEntryB] .FOOD = [100, 110] := by
      norm_num [pricesFor, memEntryA, memEntryB, List.filterMap]
    rw [show analyzeMarketTrends [memEntryA, memEntryB] (fun _ => none) .FOOD =
        match analyzeTrendList (pricesFor [memEntryA, memEntryB] .FOOD) with
        | some t => some t
        | none => none from rfl, hp]
    norm_num [analyzeTrendList]

/-- Witness for C5 (amended) on the two-price memory. -/
theorem analyze_trends_spec_witness :
    2 ≤ (pricesFor [memEntryA, memEntryB] .FOOD).length ∧
    analyzeMarketTrends [memEntryA, memEntryB] (fun _ => none) .FOOD =
      some (amendedTrendFormula (pricesFor [memEntryA, memEntryB] .FOOD)) :=
  ⟨by norm_num [pricesFor, memEntryA, memEntryB, List.filterMap],
    (analyze_trends_spec [memEntryA, memEntryB] (fun _ => none) .FOOD
      (by norm_num [pricesFor, memEntryA, memEntryB, List.filterMap])).1⟩

/-- A cargo hold with 10 units of food and nothing else. -/
def cargoFoodTen : CommodityType → ℤ
  | .FOOD => 10
  | _ => 0

/-- An Opportunist agent en route to quadrant (5,0), holding 10 food. -/
def opportunistShip : Ship :=
  { name := "Swift Trader 1"
    position := ⟨0, 0, 0, 0⟩
    energy := 800
    max_energy := 800
    cargo_hold := cargoFoodTen
    max_cargo := 100
    credits := 3000
    destination := some ⟨5, 0, 0, 0⟩
    last_trade_time := 0
    personality := .OPPORTUNIST
    preferred_commodities := []
    risk_tolerance := 0.6
    patience := 0.5 }

/-- A station one sector away from the opportunist, paying 150 for
everything: its opportunity score is 10·(150-100) - 1·0.5 = 499.5. -/
def detourStation : Station :=
  { name := "Beta Outpost 2"
    station_type := .TRADING_POST
    position := ⟨0, 0, 1, 0⟩
    market :=
      { commodities := fun _ => 150
        supply_demand := fun _ => 1
        stock_levels := fun _ => 50 } }

/-- Under an Opportunist detour redirect (roll successful, scan finds a
station), the step moves toward the detour station's position, keeping
the stored destination. -/
theorem moveShip_detour (ship : Ship) (stations : List Station) (d : Position)
    (st : Station) (hd : ship.destination = some d)
    (hop : ship.personality = .OPPORTUNIST)
    (hdt : detourTarget ship stations ship.position = some st) :
    moveShip ship stations true =
      (if ship.position.quadrant_x ≠ st.position.quadrant_x then
        ({ ship.position with quadrant_x := ship.position.quadrant_x +
            (if ship.position.quadrant_x < st.position.quadrant_x then 1 else -1) }, some d)
      else if ship.position.quadrant_y ≠ st.position.quadrant_y then
        ({ ship.position with quadrant_y := ship.position.quadrant_y +
            (if ship.position.quadrant_y < st.position.quadrant_y then 1 else -1) }, some d)
      else if ship.position.sector_x ≠ st.position.sector_x then
        ({ ship.position with sector_x := ship.position.sector_x +
            (if ship.position.sector_x < st.position.sector_x then 1 else -1) }, some d)
      else if ship.position.sector_y ≠ st.position.sector_y then
        ({ ship.position with sector_y := ship.position.sector_y +
            (if ship.position.sector_y < st.position.sector_y then 1 else -1) }, some d)
      else (ship.position, none)) := by
  simp [moveShip, hd, hop, hdt]

/-- The detour scan in the counterexample configuration finds the
nearby high-scoring station. -/
theorem detourTarget_counterexample :
    detourTarget opportunistShip [detourStation] opportunistShip.position =
      some detourStation := by
  have hdist : Position.distance_to detourStation.position opportunistShip.position = 1 := by
    decide
  have hscore : (100 : ℚ) <
      evaluateStationOpportunity opportunistShip [detourStation] detourStation 0 := by
    have hd2 : Position.distance_to opportunistShip.position detourStation.position = 1 := by
      decide
    rw [evaluateStationOpportunity, hd2]
    norm_num [opportunistShip, detourStation, cargoFoodTen, commodityList, getBasePrice]
  have hpred : decide
      (Position.distance_to detourStation.position opportunistShip.position ≤ 2 ∧
        detourStation.position ≠ opportunistShip.position ∧
        (100 : ℚ) <
          evaluateStationOpportunity opportunistShip [detourStation] detourStation 0) =
      true := by
    rw [decide_eq_true_eq]
    exact ⟨by rw [hdist]; norm_num, by decide, hscore⟩
  rw [detourTarget]
  simp only [List.find?]
  rw [hpred]

/-- C4 counterexample. With the destination set to quadrant (5,0,0,0),
the first axis on which the position (0,0,0,0) differs from the
destination is quadrant-x, yet a detouring Opportunist (detour roll
successful, qualifying station one sector away) moves sector-x instead:
the step does not advance along the first axis differing from the
destination. -/
theorem move_ship_counterexample :
    opportunistShip.destination = some ⟨5, 0, 0, 0⟩ ∧
    opportunistShip.position.quadrant_x ≠ (5 : ℤ) ∧
    (moveShip opportunistShip [detourStation] true).1.quadrant_x =
      opportunistShip.position.quadrant_x ∧
    (moveShip opportunistShip [detourStation] true).1 = ⟨0, 0, 1, 0⟩ ∧
    (moveShip opportunistShip [detourStation] true).2 = some ⟨5, 0, 0, 0⟩ := by
  have hms := moveShip_detour opportunistShip [detourStation] ⟨5, 0, 0, 0⟩
    detourStation rfl rfl detourTarget_counterexample
  rw [show opportunistShip.position = ⟨0, 0, 0, 0⟩ from rfl,
    show detourStation.position = ⟨0, 0, 1, 0⟩ from rfl] at hms
  norm_num at hms
  rw [hms]
  exact ⟨rfl, by decide, rfl, rfl, rfl⟩

/-- C4 (amended). With a destination set and no detour redirect (the
agent is not an Opportunist, or the 10% detour roll fails, or no nearby
station qualifies), a `_move_ship` invocation changes exactly the first
axis (quadrant-x, quadrant-y, sector-x, sector-y in priority order) on
which the position differs from the destination, by exactly ±1, leaving
the other coordinates and the stored destination untouched; when all
four axes match it clears the destination and moves nothing; with no
destination set it changes nothing. -/
theorem move_ship_spec (ship : Ship) (stations : List Station) (roll : Bool)
    (d : Position) (hd : ship.destination = some d)
    (hnod : ship.personality ≠ .OPPORTUNIST ∨ roll = false ∨
      detourTarget ship stations ship.position = none) :
    (ship.position.quadrant_x ≠ d.quadrant_x →
      moveShip ship stations roll =
        ({ ship.position with quadrant_x := ship.position.quadrant_x +
            (if ship.position.quadrant_x < d.quadrant_x then 1 else -1) }, some d)) ∧
    (ship.position.quadrant_x = d.quadrant_x → ship.position.quadrant_y ≠ d.quadrant_y →
      moveShip ship stations roll =
        ({ ship.position with quadrant_y := ship.position.quadrant_y +
            (if ship.position.quadrant_y < d.quadrant_y then 1 else -1) }, some d)) ∧
    (ship.position.quadrant_x = d.quadrant_x → ship.position.quadrant_y = d.quadrant_y →
      ship.position.sector_x ≠ d.sector_x →
      moveShip ship stations roll =
        ({ ship.position with sector_x := ship.position.sector_x +
            (if ship.position.sector_x < d.sector_x then 1 else -1) }, some d)) ∧
    (ship.position.quadrant_x = d.quadrant_x → ship.position.quadrant_y = d.quadrant_y →
      ship.position.sector_x = d.sector_x → ship.position.sector_y ≠ d.sector_y →
      moveShip ship stations roll =
        ({ ship.position with sector_y := ship.position.sector_y +
            (if ship.position.sector_y < d.sector_y then 1 else -1) }, some d)) ∧
    (ship.position = d → moveShip ship stations roll = (ship.position, none)) := by
  have hno : (if ship.personality = .OPPORTUNIST ∧ roll then
      match detourTarget ship stations ship.position with
      | some station => station.position
      | none => d
    else d) = d := by
    rcases hnod with h | h | h
    · rw [if_neg (fun hc => h hc.1)]
    · rw [if_neg (fun hc => by rw [h] at hc; exact Bool.false_ne_true hc.2)]
    · rw [h]
      split <;> rfl
  have hdest : moveShip ship stations roll =
      (if ship.position.quadrant_x ≠ d.quadrant_x then
        ({ ship.position with quadrant_x := ship.position.quadrant_x +
            (if ship.position.quadrant_x < d.quadrant_x then 1 else -1) }, some d)
      else if ship.position.quadrant_y ≠ d.quadrant_y then
        ({ ship.position with quadrant_y := ship.position.quadrant_y +
            (if ship.position.quadrant_y < d.quadrant_y then 1 else -1) }, some d)
      else if ship.position.sector_x ≠ d.sector_x then
        ({ ship.position with sector_x := ship.position.sector_x +
            (if ship.position.sector_x < d.sector_x then 1 else -1) }, some d)
      else if ship.position.sector_y ≠ d.sector_y then
        ({ ship.position with sector_y := ship.position.sector_y +
            (if ship.position.sector_y < d.sector_y then 1 else -1) }, some d)
      else (ship.position, none)) := by
    simp only [moveShip, hd, hno]
  rw [hdest]
  refine ⟨fun h1 => ?_, fun h1 h2 => ?_, fun h1 h2 h3 => ?_, fun h1 h2 h3 h4 => ?_,
    fun heq => ?_⟩
  · rw [if_pos h1]
  · rw [if_neg (by simpa using h1), if_pos h2]
  · rw [if_neg (by simpa using h1), if_neg (by simpa using h2), if_pos h3]
  · rw [if_neg (by simpa using h1), if_neg (by simpa using h2),
      if_neg (by simpa using h3), if_pos h4]
  · rw [heq]
    simp

/-- A Cautious (non-Opportunist) agent en route to quadrant (2,0). -/
def enRouteShip : Ship :=
  { cautiousShip with destination := some ⟨2, 0, 0, 0⟩ }

/-- Witness for C4 (amended): the cautious en-route agent advances
quadrant-x by +1 and keeps its destination. -/
theorem move_ship_spec_witness :
    (enRouteShip.destination = some ⟨2, 0, 0, 0⟩ ∧
      enRouteShip.personality ≠ .OPPORTUNIST ∧
      enRouteShip.position.quadrant_x ≠ (⟨2, 0, 0, 0⟩ : Position).quadrant_x) ∧
    moveShip enRouteShip [] false =
      ({ enRouteShip.position with quadrant_x := enRouteShip.position.quadrant_x +
          (if enRouteShip.position.quadrant_x < (⟨2, 0, 0, 0⟩ : Position).quadrant_x
            then 1 else -1) }, some ⟨2, 0, 0, 0⟩) :=
  ⟨⟨rfl, by decide, by decide⟩,
    (move_ship_spec enRouteShip [] false ⟨2, 0, 0, 0⟩ rfl
      (Or.inl (by decide))).1 (by decide)⟩

/-- The accumulator step of the `_plan_movement` candidate fold, with
the scoring function abstracted. -/
def bestStep (score : Station → ℚ) (pos : Position)
    (acc : Option Station × ℚ) (station : Station) : Option Station × ℚ :=
  if station.position = pos then acc
  else if acc.2 < score station then (some station, score station) else acc

/-- Function `planFold` is the fold of `bestStep` over the station list. -/
theorem planFold_eq_bestFold (ship : Ship) (stations : List Station) (gt : ℚ) :
    planFold ship stations gt =
      stations.foldl
        (bestStep (fun st => evaluateStationOpportunity ship stations st gt)
          ship.position)
        (none, 0) := rfl

/-- Complete characterisation of the `bestStep` fold: either no
candidate beats the accumulator, or the fold returns the first
candidate attaining the maximal score. -/
theorem bestFold_spec (score : Station → ℚ) (pos : Position) :
    ∀ (l : List Station) (acc : Option Station × ℚ),
    (l.foldl (bestStep score pos) acc = acc ∧
      ∀ st ∈ l, st.position = pos ∨ score st ≤ acc.2) ∨
    (∃ l1 st l2, l = l1 ++ st :: l2 ∧ st.position ≠ pos ∧
      l.foldl (bestStep score pos) acc = (some st, score st) ∧ acc.2 < score st ∧
      (∀ c ∈ l1, c.position = pos ∨ score c < score st) ∧
      (∀ c ∈ l2, c.position = pos ∨ score c ≤ score st)) := by
  intro l
  induction l with
  | nil => intro acc; left; exact ⟨rfl, by simp⟩
  | cons hd t ih =>
    intro acc
    rw [List.foldl_cons]
    by_cases hpos : hd.position = pos
    · have hstep : bestStep score pos acc hd = acc := by
        rw [bestStep, if_pos hpos]
      rw [hstep]
      rcases ih acc with ⟨heq, hall⟩ | ⟨l1, st, l2, hsplit, hne, hfold, hlt, hbef, haft⟩
      · left
        refine ⟨heq, fun st hst => ?_⟩
        rcases List.mem_cons.mp hst with rfl | hst
        · exact Or.inl hpos
        · exact hall st hst
      · right
        refine ⟨hd :: l1, st, l2, by rw [hsplit, List.cons_append], hne, hfold, hlt,
          fun c hc => ?_, haft⟩
        rcases List.mem_cons.mp hc with rfl | hc
        · exact Or.inl hpos
        · exact hbef c hc
    · by_cases hsc : acc.2 < score hd
      · have hstep : bestStep score pos acc hd = (some hd, score hd) := by
          rw [bestStep, if_neg hpos, if_pos hsc]
        rw [hstep]
        rcases ih (some hd, score hd) with ⟨heq, hall⟩ |
          ⟨l1, st, l2, hsplit, hne, hfold, hlt, hbef, haft⟩
        · right
          refine ⟨[], hd, t, rfl, hpos, by rw [heq], hsc, by simp, fun c hc => ?_⟩
          exact hall c hc
        · right
          refine ⟨hd :: l1, st, l2, by rw [hsplit, List.cons_append], hne, hfold,
            lt_trans hsc hlt, fun c hc => ?_, haft⟩
          rcases List.mem_cons.mp hc with rfl | hc
          · exact Or.inr hlt
          · exact hbef c hc
      · have hstep : bestStep score pos acc hd = acc := by
          rw [bestStep, if_neg hpos, if_neg hsc]
        rw [hstep]
        rcases ih acc with ⟨heq, hall⟩ | ⟨l1, st, l2, hsplit, hne, hfold, hlt, hbef, haft⟩
        · left
          refine ⟨heq, fun st hst => ?_⟩
          rcases List.mem_cons.mp hst with rfl | hst
          · exact Or.inr (not_lt.mp hsc)
          · exact hall st hst
        · right
          refine ⟨hd :: l1, st, l2, by rw [hsplit, List.cons_append], hne, hfold, hlt,
            fun c hc => ?_, haft⟩
          rcases List.mem_cons.mp hc with rfl | hc
          · exact Or.inr (lt_of_le_of_lt (not_lt.mp hsc) hlt)
          · exact hbef c hc

/-- C6. In the destination re-evaluation of `_plan_movement`: stations
at the agent's current position are excluded; a selected best candidate
scores strictly above the running best initialised to 0 and is the
first candidate attaining the maximal score (earlier candidates score
strictly less, later ones at most as much — ties keep the earlier
candidate); when no candidate scores strictly above 0 the stored
destination is left unchanged. -/
theorem plan_movement_spec (ship : Ship) (stations : List Station) (gt : ℚ) :
    (∀ st, (planFold ship stations gt).1 = some st →
      st.position ≠ ship.position ∧
      0 < evaluateStationOpportunity ship stations st gt ∧
      ∃ l1 l2, stations = l1 ++ st :: l2 ∧
        (∀ c ∈ l1, c.position ≠ ship.position →
          evaluateStationOpportunity ship stations c gt <
            evaluateStationOpportunity ship stations st gt) ∧
        (∀ c ∈ l2, c.position ≠ ship.position →
          evaluateStationOpportunity ship stations c gt ≤
            evaluateStationOpportunity ship stations st gt)) ∧
    ((∀ st ∈ stations, st.position ≠ ship.position →
        evaluateStationOpportunity ship stations st gt ≤ 0) →
      planMovementReeval ship stations gt = ship.destination) := by
  have hspec := bestFold_spec
    (fun st => evaluateStationOpportunity ship stations st gt) ship.position
    stations (none, 0)
  constructor
  · intro st hst
    rcases hspec with ⟨heq, _⟩ | ⟨l1, st', l2, hsplit, hne, hfold, hlt, hbef, haft⟩
    · rw [planFold_eq_bestFold, heq] at hst
      exact absurd hst (by simp)
    · rw [planFold_eq_bestFold, hfold] at hst
      obtain rfl : st' = st := by simpa using hst
      refine ⟨hne, hlt, l1, l2, hsplit, fun c hc hcp => ?_, fun c hc hcp => ?_⟩
      · exact (hbef c hc).resolve_left hcp
      · exact (haft c hc).resolve_left hcp
  · intro hall
    rcases hspec with ⟨heq, _⟩ | ⟨l1, st', l2, hsplit, hne, hfold, hlt, hbef, haft⟩
    · rw [planMovementReeval, planFold_eq_bestFold, heq]
    · exfalso
      have hmem : st' ∈ stations := by
        rw [hsplit]
        exact List.mem_append_right _ (List.mem_cons_self _ _)
      exact absurd hlt (not_lt.mpr (hall st' hmem hne))

/-- The detour station scores 499.5 for the opportunist agent. -/
theorem detour_station_score :
    (100 : ℚ) <
      evaluateStationOpportunity opportunistShip [detourStation] detourStation 0 := by
  have hd2 : Position.distance_to opportunistShip.position detourStation.position = 1 := by
    decide
  rw [evaluateStationOpportunity, hd2]
  norm_num [opportunistShip, detourStation, cargoFoodTen, commodityList, getBasePrice]

/-- The plan fold over the single high-scoring candidate selects it. -/
theorem plan_fold_eval :
    (planFold opportunistShip [detourStation] 0).1 = some detourStation := by
  rw [planFold_eq_bestFold, List.foldl_cons, List.foldl_nil, bestStep,
    if_neg (by decide), if_pos (lt_trans (by norm_num) detour_station_score)]

/-- Witness for C6 at a single-candidate configuration. -/
theorem plan_movement_spec_witness :
    (planFold opportunistShip [detourStation] 0).1 = some detourStation ∧
    detourStation.position ≠ opportunistShip.position ∧
    0 < evaluateStationOpportunity opportunistShip [detourStation] detourStation 0 :=
  ⟨plan_fold_eval,
    ((plan_movement_spec opportunistShip [detourStation] 0).1 detourStation
      plan_fold_eval).1,
    ((plan_movement_spec opportunistShip [detourStation] 0).1 detourStation
      plan_fold_eval).2.1⟩

/-- C9. `_should_sell_commodity` and `_should_buy_commodity` are
deterministic pure functions of personality, preferred set, risk
tolerance, patience, market prices and stock, stored trend analysis,
credits and cargo (hold contents and capacity): two invocations on
states agreeing on those inputs — however much they differ in name,
energy, position, destination, last trade time, station identity or
invocation time, and with no randomness consulted — return identical
decisions. -/
theorem decisions_deterministic (s1 s2 : Ship) (st1 st2 : Station)
    (a1 a2 : MarketAnalysis) (c : CommodityType) (t1 t2 : ℚ)
    (hper : s1.personality = s2.personality)
    (hpref : s1.preferred_commodities = s2.preferred_commodities)
    (hrisk : s1.risk_tolerance = s2.risk_tolerance)
    (hpat : s1.patience = s2.patience)
    (hprices : st1.market.commodities = st2.market.commodities)
    (hstock : st1.market.stock_levels = st2.market.stock_levels)
    (hana : a1 = a2)
    (hcred : s1.credits = s2.credits)
    (hcargo : s1.cargo_hold = s2.cargo_hold)
    (hmax : s1.max_cargo = s2.max_cargo) :
    shouldSellCommodity s1 a1 c st1 t1 = shouldSellCommodity s2 a2 c st2 t2 ∧
    shouldBuyCommodity s1 c st1 t1 = shouldBuyCommodity s2 c st2 t2 := by
  constructor
  · simp only [shouldSellCommodity, trendOf]
    rw [hper, hpref, hpat, hprices, hana]
  · simp only [shouldBuyCommodity, Ship.cargo_space_remaining, Ship.total_cargo]
    rw [hper, hpref, hrisk, hprices, hstock, hcred, hcargo, hmax]

/-- A ship agreeing with `cautiousShip` on every decision input but
differing in name, energy, position, destination and last trade time. -/
def cautiousShipShifted : Ship :=
  { cautiousShip with
    name := "Renamed Trader"
    energy := 5
    position := ⟨3, 3, 3, 3⟩
    destination := some ⟨0, 0, 0, 0⟩
    last_trade_time := 42 }

/-- A station with `foodStation`'s market but another name, type and
position. -/
def foodStationShifted : Station :=
  { foodStation with
    name := "Gamma Trading Post 7"
    station_type := .MINING_COLONY
    position := ⟨7, 7, 7, 7⟩ }

/-- Witness for C9: the shifted agent, station and time yield the same
decisions as the originals. -/
theorem decisions_deterministic_witness :
    shouldSellCommodity cautiousShip (fun _ => none) .FOOD foodStation 0 =
      shouldSellCommodity cautiousShipShifted (fun _ => none) .FOOD foodStationShifted 9 ∧
    shouldBuyCommodity cautiousShip .FOOD foodStation 0 =
      shouldBuyCommodity cautiousShipShifted .FOOD foodStationShifted 9 :=
  decisions_deterministic cautiousShip cautiousShipShifted foodStation
    foodStationShifted (fun _ => none) (fun _ => none) .FOOD 0 9
    rfl rfl rfl rfl rfl rfl rfl rfl rfl rfl

theorem commodityList_nodup : commodityList.Nodup := by decide

theorem mem_commodityList (c : CommodityType) : c ∈ commodityList := by
  cases c <;> decide

/-- Updating one key of a cargo map changes the summed total by the
difference at that key. -/
theorem sum_map_update (l : List CommodityType) (f : CommodityType → ℤ)
    (c : CommodityType) (v : ℤ) (hnd : l.Nodup) (hc : c ∈ l) :
    (l.map (Function.update f c v)).sum = (l.map f).sum - f c + v := by
  induction l with
  | nil => cases hc
  | cons hd t ih =>
    rcases List.mem_cons.mp hc with rfl | hct
    · have hnotin : c ∉ t := (List.nodup_cons.mp hnd).1
      rw [List.map_cons, List.map_cons, List.sum_cons, List.sum_cons,
        Function.update_same]
      have hmap : t.map (Function.update f c v) = t.map f :=
        List.map_congr_left fun x hx =>
          Function.update_noteq (fun he => hnotin (by rw [← he]; exact hx)) _ _
      rw [hmap]
      ring
    · have hne : hd ≠ c := fun he =>
        (List.nodup_cons.mp hnd).1 (by rw [he]; exact hct)
      rw [List.map_cons, List.map_cons, List.sum_cons, List.sum_cons,
        Function.update_noteq hne, ih (List.nodup_cons.mp hnd).2 hct]
      ring

/-- A `Bool`-true `_should_sell_commodity` forces a strictly positive
sell price (the profit margin must reach a positive threshold). -/
theorem shouldSell_price_pos (ship : Ship) (analysis : MarketAnalysis)
    (c : CommodityType) (station : Station) (t : ℚ)
    (h : shouldSellCommodity ship analysis c station t = true) :
    0 < station.market.commodities c := by
  have hb := getBasePrice_pos c
  simp only [shouldSellCommodity] at h
  by_cases htr : 0.1 < trendOf analysis c ∧ 0.7 < ship.patience
  · rw [if_pos htr] at h
    exact absurd h (by simp)
  · rw [if_neg htr, decide_eq_true_eq] at h
    have hm : (0.03 : ℚ) ≤
        (if ship.personality = .CAUTIOUS then (0.05 : ℚ)
          else if ship.personality = .AGGRESSIVE then 0.15
          else if ship.personality = .OPPORTUNIST then 0.08
          else if c ∈ ship.preferred_commodities then 0.12
          else 0.03) := by
      split_ifs <;> norm_num
    have h2 := le_trans hm h
    rw [le_div_iff hb] at h2
    linarith

/-- A strictly positive `_should_buy_commodity` amount is bounded by
each of the affordability, space and stock caps. -/
theorem shouldBuy_pos_le (ship : Ship) (c : CommodityType) (station : Station)
    (t : ℚ) (hpos : 0 < shouldBuyCommodity ship c station t) :
    shouldBuyCommodity ship c station t ≤
      pyInt (ship.credits * ship.risk_tolerance / station.market.commodities c) ∧
    shouldBuyCommodity ship c station t ≤ ship.cargo_space_remaining ∧
    shouldBuyCommodity ship c station t ≤ station.market.stock_levels c := by
  simp only [shouldBuyCommodity] at hpos ⊢
  split_ifs at hpos ⊢ <;> omega

/-- An integer at least 1 below `pyInt q` forces `q` positive and at
least that integer. -/
theorem le_pyInt_pos (q : ℚ) (n : ℤ) (h0 : 0 < n) (hle : n ≤ pyInt q) :
    (n : ℚ) ≤ q := by
  rw [pyInt] at hle
  split_ifs at hle with hq
  · exact le_trans (by exact_mod_cast hle) (Int.floor_le q)
  · exfalso
    have hceil : ⌈q⌉ ≤ 0 := Int.ceil_le.mpr (by exact_mod_cast (not_le.mp hq).le)
    omega

/-- The invariant of the C10 claim: non-negative credits, non-negative
cargo quantities, total cargo within capacity. -/
def TraderInvariant (s : Ship) : Prop :=
  0 ≤ s.credits ∧ (∀ c, 0 ≤ s.cargo_hold c) ∧ s.total_cargo ≤ s.max_cargo

/-- One sell-loop iteration preserves the trader invariant, the risk
tolerance and capacity, and all cargo entries other than the item's. -/
theorem sellStep_inv (analysis : MarketAnalysis) (station0 : Station) (gt : ℚ)
    (s : TradeState) (item : CommodityType × ℤ)
    (hsnap : item.2 = s.ship.cargo_hold item.1)
    (hc : 0 ≤ s.ship.credits) (hq : ∀ x, 0 ≤ s.ship.cargo_hold x)
    (ht : s.ship.total_cargo ≤ s.ship.max_cargo) :
    (0 ≤ (sellStep analysis station0 gt s item).ship.credits ∧
      (∀ x, 0 ≤ (sellStep analysis station0 gt s item).ship.cargo_hold x) ∧
      (sellStep analysis station0 gt s item).ship.total_cargo ≤
        (sellStep analysis station0 gt s item).ship.max_cargo) ∧
    (sellStep analysis station0 gt s item).ship.risk_tolerance =
      s.ship.risk_tolerance ∧
    (sellStep analysis station0 gt s item).ship.max_cargo = s.ship.max_cargo ∧
    ∀ x, x ≠ item.1 →
      (sellStep analysis station0 gt s item).ship.cargo_hold x =
        s.ship.cargo_hold x := by
  by_cases hcond : 0 < item.2 ∧
      shouldSellCommodity s.ship analysis item.1
        { station0 with market := s.market } gt = true
  · obtain ⟨hq0, hsell⟩ := hcond
    have hprice : 0 < s.market.commodities item.1 :=
      shouldSell_price_pos s.ship analysis item.1
        { station0 with market := s.market } gt hsell
    set sa : ℤ :=
      (if s.ship.personality = .CAUTIOUS then min item.2 5
       else if s.ship.personality = .AGGRESSIVE then min item.2 15
       else min item.2 10) with hsa
    have hstep : sellStep analysis station0 gt s item =
        { ship := { s.ship with
            cargo_hold := Function.update s.ship.cargo_hold item.1
              (s.ship.cargo_hold item.1 - sa),
            credits := s.ship.credits + (sa : ℚ) * s.market.commodities item.1 },
          market := s.market.adjust_price item.1 sa,
          total_profit := s.total_profit +
            (sa : ℚ) * (s.market.commodities item.1 - getBasePrice item.1) } := by
      rw [sellStep, if_pos ⟨hq0, hsell⟩]
    have hsa_le : sa ≤ item.2 := by
      rw [hsa]; split_ifs <;> exact min_le_left _ _
    have hsa_nonneg : 0 ≤ sa := by
      rw [hsa]; split_ifs <;> exact le_min (le_of_lt hq0) (by norm_num)
    rw [hstep]
    refine ⟨⟨?_, ?_, ?_⟩, rfl, rfl, fun x hx => Function.update_noteq hx _ _⟩
    · exact add_nonneg hc
        (mul_nonneg (by exact_mod_cast hsa_nonneg) hprice.le)
    · intro x
      show 0 ≤ Function.update s.ship.cargo_hold item.1
        (s.ship.cargo_hold item.1 - sa) x
      rcases eq_or_ne x item.1 with rfl | hx
      · rw [Function.update_same]
        omega
      · rw [Function.update_noteq hx]
        exact hq x
    · show (commodityList.map
          (Function.update s.ship.cargo_hold item.1
            (s.ship.cargo_hold item.1 - sa))).sum ≤ s.ship.max_cargo
      rw [sum_map_update commodityList s.ship.cargo_hold item.1 _
        commodityList_nodup (mem_commodityList item.1)]
      have ht2 : (commodityList.map s.ship.cargo_hold).sum ≤ s.ship.max_cargo := ht
      omega
  · have hstep : sellStep analysis station0 gt s item = s := by
      rw [sellStep, if_neg hcond]
    rw [hstep]
    exact ⟨⟨hc, hq, ht⟩, rfl, rfl, fun x _ => rfl⟩

/-- One buy-loop iteration preserves the trader invariant, risk
tolerance and capacity. -/
theorem buyStep_inv (station0 : Station) (gt : ℚ) (s : TradeState)
    (c : CommodityType)
    (hr0 : 0 ≤ s.ship.risk_tolerance) (hr1 : s.ship.risk_tolerance ≤ 1)
    (hc : 0 ≤ s.ship.credits) (hq : ∀ x, 0 ≤ s.ship.cargo_hold x)
    (ht : s.ship.total_cargo ≤ s.ship.max_cargo) :
    (0 ≤ (buyStep station0 gt s c).ship.credits ∧
      (∀ x, 0 ≤ (buyStep station0 gt s c).ship.cargo_hold x) ∧
      (buyStep station0 gt s c).ship.total_cargo ≤
        (buyStep station0 gt s c).ship.max_cargo) ∧
    (buyStep station0 gt s c).ship.risk_tolerance = s.ship.risk_tolerance ∧
    (buyStep station0 gt s c).ship.max_cargo = s.ship.max_cargo := by
  rw [buyStep]
  split_ifs with hpos
  · obtain ⟨haff, hspace, hstock⟩ :=
      shouldBuy_pos_le s.ship c { station0 with market := s.market } gt hpos
    set a : ℤ := shouldBuyCommodity s.ship c { station0 with market := s.market } gt
      with ha
    have hfund : ((a : ℚ)) ≤
        s.ship.credits * s.ship.risk_tolerance / s.market.commodities c :=
      le_pyInt_pos _ a hpos haff
    have hfund_nonneg : 0 ≤ s.ship.credits * s.ship.risk_tolerance :=
      mul_nonneg hc hr0
    have hprice : 0 < s.market.commodities c := by
      by_contra hp
      push_neg at hp
      rcases lt_or_eq_of_le hp with hlt | heq
      · have hdiv : s.ship.credits * s.ship.risk_tolerance /
            s.market.commodities c ≤ 0 :=
          div_nonpos_of_nonneg_of_nonpos hfund_nonneg hlt.le
        have : ((a : ℚ)) ≤ 0 := le_trans hfund hdiv
        have : (0 : ℚ) < a := by exact_mod_cast hpos
        linarith
      · rw [heq, div_zero] at hfund
        have : (0 : ℚ) < a := by exact_mod_cast hpos
        linarith
    have hcost : (a : ℚ) * s.market.commodities c ≤
        s.ship.credits * s.ship.risk_tolerance :=
      (le_div_iff hprice).mp hfund
    refine ⟨⟨?_, ?_, ?_⟩, rfl, rfl⟩
    · have hck : s.ship.credits * s.ship.risk_tolerance ≤ s.ship.credits := by
        nlinarith
      show 0 ≤ s.ship.credits - (a : ℚ) * s.market.commodities c
      linarith
    · intro x
      show 0 ≤ Function.update s.ship.cargo_hold c (s.ship.cargo_hold c + a) x
      rcases eq_or_ne x c with rfl | hx
      · rw [Function.update_same]
        have := hq x
        omega
      · rw [Function.update_noteq hx]
        exact hq x
    · show (commodityList.map
          (Function.update s.ship.cargo_hold c
            (s.ship.cargo_hold c + a))).sum ≤ s.ship.max_cargo
      rw [sum_map_update commodityList s.ship.cargo_hold c _
        commodityList_nodup (mem_commodityList c)]
      have htot : (commodityList.map s.ship.cargo_hold).sum ≤ s.ship.max_cargo := ht
      have hsp : a ≤ s.ship.max_cargo - (commodityList.map s.ship.cargo_hold).sum :=
        hspace
      omega
  · exact ⟨⟨hc, hq, ht⟩, rfl, rfl⟩

/-- The sell loop, folded over a duplicate-free snapshot of the cargo
hold, preserves the trader invariant, risk tolerance and capacity. -/
theorem sell_fold_inv (analysis : MarketAnalysis) (station0 : Station) (gt : ℚ) :
    ∀ (items : List (CommodityType × ℤ)) (s : TradeState),
    (items.map Prod.fst).Nodup →
    (∀ p ∈ items, p.2 = s.ship.cargo_hold p.1) →
    0 ≤ s.ship.credits → (∀ x, 0 ≤ s.ship.cargo_hold x) →
    s.ship.total_cargo ≤ s.ship.max_cargo →
    0 ≤ (items.foldl (sellStep analysis station0 gt) s).ship.credits ∧
    (∀ x, 0 ≤ (items.foldl (sellStep analysis station0 gt) s).ship.cargo_hold x) ∧
    (items.foldl (sellStep analysis station0 gt) s).ship.total_cargo ≤
      (items.foldl (sellStep analysis station0 gt) s).ship.max_cargo ∧
    (items.foldl (sellStep analysis station0 gt) s).ship.risk_tolerance =
      s.ship.risk_tolerance ∧
    (items.foldl (sellStep analysis station0 gt) s).ship.max_cargo =
      s.ship.max_cargo := by
  intro items
  induction items with
  | nil =>
    intro s _ _ hc hq ht
    exact ⟨hc, hq, ht, rfl, rfl⟩
  | cons hd t ih =>
    intro s hnd hsnap hc hq ht
    rw [List.map_cons] at hnd
    obtain ⟨hnotin, hnd'⟩ := List.nodup_cons.mp hnd
    rw [List.foldl_cons]
    obtain ⟨⟨hc', hq', ht'⟩, hrisk', hmax', hcargo'⟩ :=
      sellStep_inv analysis station0 gt s hd
        (hsnap hd (List.mem_cons_self _ _)) hc hq ht
    have hsnap' : ∀ p ∈ t,
        p.2 = (sellStep analysis station0 gt s hd).ship.cargo_hold p.1 := by
      intro p hp
      have hne : p.1 ≠ hd.1 := by
        intro he
        exact hnotin (by rw [← he]; exact List.mem_map_of_mem Prod.fst hp)
      rw [hcargo' p.1 hne]
      exact hsnap p (List.mem_cons_of_mem _ hp)
    obtain ⟨hcr, hqr, htr, hriskr, hmaxr⟩ :=
      ih (sellStep analysis station0 gt s hd) hnd' hsnap' hc' hq' ht'
    exact ⟨hcr, hqr, htr, by rw [hriskr, hrisk'], by rw [hmaxr, hmax']⟩

/-- The buy loop preserves the trader invariant. -/
theorem buy_fold_inv (station0 : Station) (gt : ℚ) :
    ∀ (cs : List CommodityType) (s : TradeState),
    0 ≤ s.ship.risk_tolerance → s.ship.risk_tolerance ≤ 1 →
    0 ≤ s.ship.credits → (∀ x, 0 ≤ s.ship.cargo_hold x) →
    s.ship.total_cargo ≤ s.ship.max_cargo →
    0 ≤ (cs.foldl (buyStep station0 gt) s).ship.credits ∧
    (∀ x, 0 ≤ (cs.foldl (buyStep station0 gt) s).ship.cargo_hold x) ∧
    (cs.foldl (buyStep station0 gt) s).ship.total_cargo ≤
      (cs.foldl (buyStep station0 gt) s).ship.max_cargo := by
  intro cs
  induction cs with
  | nil =>
    intro s _ _ hc hq ht
    exact ⟨hc, hq, ht⟩
  | cons hd t ih =>
    intro s hr0 hr1 hc hq ht
    rw [List.foldl_cons]
    obtain ⟨⟨hc', hq', ht'⟩, hrisk', _⟩ :=
      buyStep_inv station0 gt s hd hr0 hr1 hc hq ht
    exact ih _ (by rw [hrisk']; exact hr0) (by rw [hrisk']; exact hr1) hc' hq' ht'

set_option maxHeartbeats 1000000 in
/-- C10. `_trade_at_station` preserves the trader invariant: from a
pre-state with non-negative credits, risk tolerance in [0,1],
non-negative cargo quantities and total cargo within capacity, the
post-state again has non-negative credits, non-negative cargo
quantities and total cargo within capacity (each sell is capped by the
held quantity, each buy by affordability, re-read remaining space and
station stock). -/
theorem trade_at_station_invariant (ship : Ship) (analysis : MarketAnalysis)
    (history : List ℚ) (station0 : Station) (market : Market) (gt : ℚ)
    (hinv : TraderInvariant ship)
    (hr0 : 0 ≤ ship.risk_tolerance) (hr1 : ship.risk_tolerance ≤ 1) :
    TraderInvariant (tradeAtStation ship analysis history station0 market gt).1 := by
  obtain ⟨hc, hq, ht⟩ := hinv
  rw [tradeAtStation]
  split_ifs with hgate
  · exact ⟨hc, hq, ht⟩
  · have hndup : ((commodityList.map fun c =>
        (c, ship.cargo_hold c)).map Prod.fst).Nodup := by
      rw [List.map_map,
        show (Prod.fst ∘ fun c : CommodityType => (c, ship.cargo_hold c)) = id from rfl,
        List.map_id]
      exact commodityList_nodup
    have hsnap : ∀ p ∈ (commodityList.map fun c => (c, ship.cargo_hold c)),
        p.2 = ship.cargo_hold p.1 := by
      intro p hp
      obtain ⟨c, _, rfl⟩ := List.mem_map.mp hp
      rfl
    obtain ⟨hc1, hq1, ht1, hrisk1, _⟩ :=
      sell_fold_inv analysis station0 gt
        (commodityList.map fun c => (c, ship.cargo_hold c))
        { ship := ship, market := market, total_profit := 0 } hndup hsnap hc hq ht
    obtain ⟨hc2, hq2, ht2⟩ :=
      buy_fold_inv station0 gt commodityList
        ((commodityList.map fun c => (c, ship.cargo_hold c)).foldl
          (sellStep analysis station0 gt)
          { ship := ship, market := market, total_profit := 0 })
        (by rw [hrisk1]; exact hr0) (by rw [hrisk1]; exact hr1) hc1 hq1 ht1
    show TraderInvariant
      { (commodityList.foldl (buyStep station0 gt)
          ((commodityList.map fun c => (c, ship.cargo_hold c)).foldl
            (sellStep analysis station0 gt)
            { ship := ship, market := market, total_profit := 0 })).ship with
        last_trade_time := gt }
    revert hc2 hq2 ht2
    generalize commodityList.foldl (buyStep station0 gt)
      ((commodityList.map fun c => (c, ship.cargo_hold c)).foldl
        (sellStep analysis station0 gt)
        { ship := ship, market := market, total_profit := 0 }) = Y
    intro hc2 hq2 ht2
    exact ⟨hc2, hq2, ht2⟩

/-- Witness for C10 at the concrete cautious agent and food station. -/
theorem trade_at_station_invariant_witness :
    (TraderInvariant cautiousShip ∧
      0 ≤ cautiousShip.risk_tolerance ∧ cautiousShip.risk_tolerance ≤ 1) ∧
    TraderInvariant
      (tradeAtStation cautiousShip (fun _ => none) [] foodStation
        foodStation.market 5).1 :=
  ⟨⟨⟨by norm_num [cautiousShip], fun c => le_refl 0, by decide⟩,
      by norm_num [cautiousShip], by norm_num [cautiousShip]⟩,
    trade_at_station_invariant cautiousShip (fun _ => none) [] foodStation
      foodStation.market 5
      ⟨by norm_num [cautiousShip], fun c => le_refl 0, by decide⟩
      (by norm_num [cautiousShip]) (by norm_num [cautiousShip])⟩

end EGATrader
